import Mathlib

/-!
Verification development for the image-distribution layer of an early
container engine (push/pull protocol and its JSON metadata codec), shallowly
embedded from components/engine/commands.go.

Byte streams are modelled as Lean strings (lists of characters); HTTP is
modelled by response oracles supplied in an environment record; every request
the code issues is recorded as an explicit event so that request-counting
properties can be stated.
-/

/-- Image record. Modelled from the spec: the Image struct lives in the image
module, which is not among the provided source files. The spec's data model
lists the fields id, parent, createdAt (an opaque timestamp, modelled as a
string), parentCommand, and comment. -/
structure Image where
  id : String
  parent : String
  createdAt : String
  parentCommand : List String
  comment : String
deriving DecidableEq

/-- The zero Image, as produced by the Go expression Image\x7b\x7d: every
field at its zero value. JSON decoding starts from this record and
overwrites the fields present in the payload. -/
def Image.zero : Image := ⟨"", "", "", [], ""⟩

/-- JSON values appearing in the image wire format: string fields and the
parentCommand array of strings. -/
inductive JVal where
  | str : String → JVal
  | arr : List String → JVal
deriving DecidableEq

/-- Go strings.Replace(s, "null", quote-quote, -1) at line 526/538: scan left
to right, replace each non-overlapping occurrence of the four characters
n u l l with two double-quote characters, never rescanning inserted text. -/
def repNull : List Char → List Char
  | 'n' :: 'u' :: 'l' :: 'l' :: rest => '"' :: '"' :: repNull rest
  | c :: rest => c :: repNull rest
  | [] => []

/-- JSON whitespace. -/
def isWs (c : Char) : Bool := c = ' ' || c = '\t' || c = '\n' || c = '\r'

/-- Drop leading JSON whitespace. -/
def skipWs : List Char → List Char
  | [] => []
  | c :: r => if isWs c then skipWs r else c :: r

/-- Parse the body of a JSON string after the opening quote, returning the
unescaped content and the remainder after the closing quote. The escapes
needed by the image wire format (escaped quote and escaped backslash) are
supported; anything else after a backslash is rejected. -/
def parseStringBody : List Char → Option (List Char × List Char)
  | [] => none
  | c :: rest =>
    if c = '"' then some ([], rest)
    else if c = '\\' then
      match rest with
      | [] => none
      | e :: rest2 =>
        if e = '"' || e = '\\' then
          match parseStringBody rest2 with
          | none => none
          | some (s, r) => some (e :: s, r)
        else none
    else
      match parseStringBody rest with
      | none => none
      | some (s, r) => some (c :: s, r)

/-- Parse the comma-separated string elements of a non-empty JSON array,
consuming the closing bracket. Fuel bounds the number of elements. -/
def parseArrElems : Nat → List Char → Option (List String × List Char)
  | 0, _ => none
  | fuel+1, s =>
    match skipWs s with
    | [] => none
    | c :: r =>
      if c = '"' then
        match parseStringBody r with
        | none => none
        | some (e, r2) =>
          match skipWs r2 with
          | [] => none
          | d :: r3 =>
            if d = ',' then
              match parseArrElems fuel r3 with
              | none => none
              | some (xs, r4) => some (String.mk e :: xs, r4)
            else if d = ']' then some ([String.mk e], r3)
            else none
      else none

/-- Parse a JSON array of strings after the opening bracket. -/
def parseArr (s : List Char) : Option (List String × List Char) :=
  match skipWs s with
  | [] => none
  | c :: r => if c = ']' then some ([], r) else parseArrElems (s.length + 1) s

/-- Parse one JSON value of the image wire format: a string or an array of
strings. (A literal null never reaches the parser: the null replacement has
already rewritten it to an empty string.) -/
def parseJVal (s : List Char) : Option (JVal × List Char) :=
  match skipWs s with
  | [] => none
  | c :: r =>
    if c = '"' then
      match parseStringBody r with
      | none => none
      | some (e, r2) => some (JVal.str (String.mk e), r2)
    else if c = '[' then
      match parseArr r with
      | none => none
      | some (xs, r2) => some (JVal.arr xs, r2)
    else none

/-- Parse the non-empty member list of a JSON object, consuming the closing
brace. Fuel bounds the number of members. -/
def parseMembers : Nat → List Char → Option (List (String × JVal) × List Char)
  | 0, _ => none
  | fuel+1, s =>
    match skipWs s with
    | [] => none
    | c :: r =>
      if c = '"' then
        match parseStringBody r with
        | none => none
        | some (k, r2) =>
          match skipWs r2 with
          | [] => none
          | d :: r3 =>
            if d = ':' then
              match parseJVal r3 with
              | none => none
              | some (v, r4) =>
                match skipWs r4 with
                | [] => none
                | e :: r5 =>
                  if e = ',' then
                    match parseMembers fuel r5 with
                    | none => none
                    | some (ms, r6) => some ((String.mk k, v) :: ms, r6)
                  else if e = '\x7d' then some ([(String.mk k, v)], r5)
                  else none
            else none
      else none

/-- Parse one JSON object, returning its members in source order and the
remainder of the input. -/
def parseObj (s : List Char) : Option (List (String × JVal) × List Char) :=
  match skipWs s with
  | [] => none
  | c :: r =>
    if c = '\x7b' then
      match skipWs r with
      | [] => none
      | d :: r2 =>
        if d = '\x7d' then some ([], r2) else parseMembers (r.length + 1) r
    else none

/-- Apply one decoded object member to an Image under Go json.Unmarshal
field matching: the five known field names are assigned (a value of the
wrong shape is a decode error), unknown keys are ignored, later duplicates
overwrite earlier ones. -/
def applyField (img : Image) : String × JVal → Option Image
  | ("id", JVal.str s) => some { img with id := s }
  | ("id", JVal.arr _) => none
  | ("parent", JVal.str s) => some { img with parent := s }
  | ("parent", JVal.arr _) => none
  | ("createdAt", JVal.str s) => some { img with createdAt := s }
  | ("createdAt", JVal.arr _) => none
  | ("parentCommand", JVal.arr xs) => some { img with parentCommand := xs }
  | ("parentCommand", JVal.str _) => none
  | ("comment", JVal.str s) => some { img with comment := s }
  | ("comment", JVal.arr _) => none
  | (_, _) => some img

/-- Fold the decoded members over an Image, in source order. -/
def buildImage : Image → List (String × JVal) → Option Image
  | img, [] => some img
  | img, f :: fs =>
    match applyField img f with
    | none => none
    | some img2 => buildImage img2 fs

/-- newImgJson (commands.go:521-532): replace every occurrence of null by a
pair of double quotes in the raw payload, then unmarshal the result as a
single JSON object into an Image starting from the zero record. Unmarshal
demands that nothing but whitespace follow the one value. -/
def newImgJson (src : String) : Option Image :=
  let s := repNull src.toList
  match parseObj s with
  | none => none
  | some (ms, rest) =>
    if skipWs rest = [] then buildImage Image.zero ms else none

/-- doDecodeStream: the loop of newMultipleImgJson. Decode JSON objects one
after another until only whitespace remains (the decoder's end-of-stream),
failing on any malformed or ill-typed record. Each decoded record is a fresh
map key in the Go original (the map is keyed by pointer, so duplicates are
all retained and iteration order is unspecified); the embedding returns the
records as a list — the list order is only a determinization of that
unordered map, and no property below reads it except up to permutation.
Fuel bounds the number of objects. -/
def doDecodeStream : Nat → List Char → Option (List Image)
  | 0, _ => none
  | fuel+1, s =>
    match skipWs s with
    | [] => some []
    | c :: r =>
      match parseObj (c :: r) with
      | none => none
      | some (ms, rest) =>
        match buildImage Image.zero ms with
        | none => none
        | some img =>
          match doDecodeStream fuel rest with
          | none => none
          | some imgs => some (img :: imgs)

/-- newMultipleImgJson (commands.go:534-549): replace every occurrence of
null by a pair of double quotes in the raw stream, then decode concatenated
JSON objects until end of stream. -/
def newMultipleImgJson (src : String) : Option (List Image) :=
  let s := repNull src.toList
  doDecodeStream (s.length + 1) s

/-- Registry base endpoint (commands.go:26). -/
def REGISTRY_ENDPOINT : String := "http://registry-creack.dotcloud.com/v1"

/-- One network request issued by push, recorded for bookkeeping. metaPut is
the PUT of the image json to base/images/id/json; layerNeg the empty-body PUT
to base/images/id/layer; layerPut the PUT of the archive to the negotiated
location, with its declared Content-Length, body, and transfer encoding. The
id on layerPut records which iteration of the chain issued it. -/
inductive ReqEvent where
  | metaPut (id : String) (body : String)
  | layerNeg (id : String)
  | layerPut (id : String) (loc : String) (contentLength : Nat)
      (body : String) (transferEncoding : List String)
deriving DecidableEq

/-- One line written by CmdPush to its stdout, one constructor per
fmt.Fprintf in commands.go:441-516. -/
inductive PushOut where
  | pushing (id : String)
  | errReadJson (id : String)
  | errMetaTransport (id : String)
  | alreadyPresent
  | errInvalidJson
  | errMetaStatus (id : String) (code : Nat)
  | errNeg (id : String)
  | errLocation (id : String)
  | errTar (id : String)
  | errLayerPut (id : String) (code : Option Nat)
deriving DecidableEq

/-- Environment of CmdPush: the local graph reads and the registry's
responses. get models srv.runtime.graph.Get; readJson the ReadFile of the
image's json file under the graph root; tarLayer the Tar(layer dir, Gzip)
archive bytes (deterministic, so the two Tar calls at lines 490-491 agree);
metaPut, layerNeg, layerPut the HTTP responses, where none is a transport
error (nil response) and some carries the status code, layerNeg also the
optional Location header. -/
structure SrvEnv where
  get : String → Option Image
  readJson : String → Option String
  tarLayer : String → Option String
  metaPut : String → String → Option Nat
  layerNeg : String → Option (Nat × Option String)
  layerPut : String → String → Option Nat

/-- Body of the WalkHistory callback in CmdPush (commands.go:441-516): the
three-phase upload of one image, returning the requests issued and the lines
printed. Every failure path returns from the callback, never from CmdPush. -/
def pushImage (env : SrvEnv) (img : Image) : List ReqEvent × List PushOut :=
  let out0 := [PushOut.pushing img.id]
  match env.readJson img.id with
  | none => ([], out0 ++ [PushOut.errReadJson img.id])
  | some jsonRaw =>
    let ev1 := [ReqEvent.metaPut img.id jsonRaw]
    match env.metaPut img.id jsonRaw with
    | none => (ev1, out0 ++ [PushOut.errMetaTransport img.id])
    | some code =>
      if code = 200 then
        let ev2 := ev1 ++ [ReqEvent.layerNeg img.id]
        match env.layerNeg img.id with
        | none => (ev2, out0 ++ [PushOut.errNeg img.id])
        | some (st, locOpt) =>
          if st = 307 then
            match locOpt with
            | none => (ev2, out0 ++ [PushOut.errLocation img.id])
            | some loc =>
              match env.tarLayer img.id with
              | none => (ev2, out0 ++ [PushOut.errTar img.id])
              | some layerBytes =>
                let ev3 := ev2 ++
                  [ReqEvent.layerPut img.id loc layerBytes.length layerBytes ["none"]]
                match env.layerPut loc layerBytes with
                | none => (ev3, out0 ++ [PushOut.errLayerPut img.id none])
                | some c3 =>
                  if c3 = 200 then (ev3, out0)
                  else (ev3, out0 ++ [PushOut.errLayerPut img.id (some c3)])
          else (ev2, out0 ++ [PushOut.errNeg img.id])
      else if code = 204 then (ev1, out0 ++ [PushOut.alreadyPresent])
      else if code = 400 then (ev1, out0 ++ [PushOut.errInvalidJson])
      else (ev1, out0 ++ [PushOut.errMetaStatus img.id code])

/-- The WalkHistory iteration of CmdPush: run the callback on every image of
the chain in order; the callback has no way to stop the walk. -/
def pushChain : SrvEnv → List Image → List ReqEvent × List PushOut
  | _, [] => ([], [])
  | env, img :: rest =>
    let r := pushImage env img
    let rs := pushChain env rest
    (r.1 ++ rs.1, r.2 ++ rs.2)

/-- Modelled from the spec: Image.WalkHistory lives in the image module,
absent from the provided sources. Per the spec it enumerates the ancestor
chain from leaf to root inclusive by following parent links, which terminate
at a root; fuel bounds the (finite) chain depth. -/
def walkHistory (get : String → Option Image) : Nat → Image → List Image
  | 0, img => [img]
  | fuel+1, img =>
    if img.parent = "" then [img]
    else
      match get img.parent with
      | none => [img]
      | some p => img :: walkHistory get fuel p

/-- CmdPush (commands.go:427-519): resolve the leaf from the graph; on a
lookup error return nil at once (line 439) with nothing printed and no
request issued; otherwise walk the history pushing each image. Both branches
return nil (the Option String error component is always none). CLI argument
parsing is out of scope; the image name is passed directly. -/
def CmdPush (env : SrvEnv) (fuel : Nat) (name : String) :
    Option String × List ReqEvent × List PushOut :=
  match env.get name with
  | none => (none, [], [])
  | some img =>
    let r := pushChain env (walkHistory env.get fuel img)
    (none, r.1, r.2)

/-- Errors returned by CmdPulli, one per return-err site: transport failure
or body-read failure on the history GET, malformed history stream, transport
failure on an image's json GET, malformed image json, transport failure on
the layer GET, and a failed graph.Register. -/
inductive PullErr where
  | transportHistory
  | parseHistory
  | transportJson (id : String)
  | parseJson (id : String)
  | transportLayer (id : String)
  | registerFailed (id : String)
deriving DecidableEq

/-- One network request or graph write issued by pull: the history GET, an
image json GET, a layer GET, and a call to graph.Register. -/
inductive PullEvent where
  | histGet (id : String)
  | jsonGet (id : String)
  | layerGet (id : String)
  | registerCall (id : String)
deriving DecidableEq

/-- Environment of CmdPulli: the registry's responses (none is a transport
or body-read error, some the returned bytes; pull never inspects status
codes on its GETs, matching the source) and the Register failure oracle,
modelled from the spec for the graph module absent from the sources:
Register either persists image and layer atomically or fails leaving the
graph unchanged. -/
structure PullEnv where
  histGet : String → Option String
  jsonGet : String → Option String
  layerGet : String → Option String
  regFail : Image → String → Bool

/-- Local graph state as pull sees it. Modelled from the spec (the graph
module is absent from the sources): a store of id-keyed records, each id
holding its Image and layer bytes; Exists is membership; Register appends. -/
structure GraphState where
  store : List (String × Image × String)
deriving DecidableEq

/-- graph.Exists: some store entry carries this id. -/
def GraphState.existsId (g : GraphState) (id : String) : Bool :=
  g.store.any (fun e => e.1 == id)

/-- graph.Register on the success path: persist image and layer under the
image's id. -/
def GraphState.register (g : GraphState) (img : Image) (layer : String) :
    GraphState :=
  ⟨g.store ++ [(img.id, img, layer)]⟩

/-- getRemoteImage (commands.go:570-595): GET the image json, decode it with
newImgJson, force the id field to the requested id, then GET the layer and
return its byte stream. Any transport error or decode error fails the call. -/
def getRemoteImage (env : PullEnv) (id : String) :
    Except PullErr (Image × String) × List PullEvent :=
  match env.jsonGet id with
  | none => (Except.error (PullErr.transportJson id), [PullEvent.jsonGet id])
  | some raw =>
    match newImgJson raw with
    | none => (Except.error (PullErr.parseJson id), [PullEvent.jsonGet id])
    | some img0 =>
      let img := { img0 with id := id }
      match env.layerGet id with
      | none =>
        (Except.error (PullErr.transportLayer id),
          [PullEvent.jsonGet id, PullEvent.layerGet id])
      | some layer =>
        (Except.ok (img, layer), [PullEvent.jsonGet id, PullEvent.layerGet id])

/-- getHistory (commands.go:551-568): GET the history manifest and decode it
as a stream of image records with newMultipleImgJson. -/
def getHistory (env : PullEnv) (id : String) :
    Except PullErr (List Image) × List PullEvent :=
  match env.histGet id with
  | none => (Except.error PullErr.transportHistory, [PullEvent.histGet id])
  | some body =>
    match newMultipleImgJson body with
    | none => (Except.error PullErr.parseHistory, [PullEvent.histGet id])
    | some hist => (Except.ok hist, [PullEvent.histGet id])

/-- The loop of CmdPulli (commands.go:615-626): for each history record whose
id does not yet exist locally, fetch it and register it; the first error
returns from CmdPulli at once, leaving the graph as it was before the
failing record's processing. -/
def pullLoop (env : PullEnv) : GraphState → List Image →
    Option PullErr × GraphState × List PullEvent
  | g, [] => (none, g, [])
  | g, j :: rest =>
    if g.existsId j.id then pullLoop env g rest
    else
      match getRemoteImage env j.id with
      | (Except.error e, evs) => (some e, g, evs)
      | (Except.ok (img, layer), evs) =>
        let evs2 := evs ++ [PullEvent.registerCall img.id]
        if env.regFail img layer then
          (some (PullErr.registerFailed img.id), g, evs2)
        else
          let r := pullLoop env (g.register img layer) rest
          (r.1, r.2.1, evs2 ++ r.2.2)

/-- CmdPulli (commands.go:597-628): fetch and decode the history, then run
the pull loop over it; any error is returned to the caller unchanged. CLI
argument parsing is out of scope; the image name is passed directly. -/
def CmdPulli (env : PullEnv) (g : GraphState) (name : String) :
    Option PullErr × GraphState × List PullEvent :=
  match getHistory env name with
  | (Except.error e, evs) => (some e, g, evs)
  | (Except.ok hist, evs) =>
    let r := pullLoop env g hist
    (r.1, r.2.1, evs ++ r.2.2)

/-- JSON string escaping for one character: quote and backslash are escaped,
everything else is emitted as is. -/
def escChar (c : Char) : List Char :=
  if c = '"' || c = '\\' then ['\\', c] else [c]

/-- JSON string escaping. -/
def escapeChars : List Char → List Char
  | [] => []
  | c :: r => escChar c ++ escapeChars r

/-- A quoted JSON string literal. -/
def qstr (s : String) : List Char :=
  '"' :: escapeChars s.toList ++ ['"']

/-- Render the elements of a JSON array of strings, comma separated. -/
def renderElems : List String → List Char
  | [] => []
  | [x] => qstr x
  | x :: y :: r => qstr x ++ ',' :: renderElems (y :: r)

/-- A JSON array of strings. -/
def renderArr (xs : List String) : List Char :=
  '[' :: renderElems xs ++ [']']

/-- Render one JSON value. -/
def renderVal : JVal → List Char
  | JVal.str s => qstr s
  | JVal.arr xs => renderArr xs

/-- Render one object member as key, colon, space, value. -/
def renderMember (m : String × JVal) : List Char :=
  qstr m.1 ++ ':' :: ' ' :: renderVal m.2

/-- Render an object member list, comma-space separated. -/
def renderMembers : List (String × JVal) → List Char
  | [] => []
  | [m] => renderMember m
  | m :: m2 :: r => renderMember m ++ ',' :: ' ' :: renderMembers (m2 :: r)

/-- The members of the canonical serialization of an Image, in the data
model's field order. -/
def imageMembers (img : Image) : List (String × JVal) :=
  [("id", JVal.str img.id), ("parent", JVal.str img.parent),
   ("createdAt", JVal.str img.createdAt),
   ("parentCommand", JVal.arr img.parentCommand),
   ("comment", JVal.str img.comment)]

/-- Modelled from the spec: the graph's persisted json file for an image,
read by push at commands.go:444 and written by the graph module absent from
the sources; per the spec the codec serializes an Image to a canonical JSON
object. -/
def serializeImage (img : Image) : String :=
  String.mk ('\x7b' :: renderMembers (imageMembers img) ++ ['\x7d'])

/-- Concatenation of the serializations of a list of images: the history
manifest a faithful registry serves for that chain, a stream of
concatenated JSON objects. -/
def serializeStream : List Image → String
  | [] => ""
  | img :: r => serializeImage img ++ serializeStream r


theorem mk_toList (s : String) : String.mk s.toList = s := by
  cases s
  rfl

theorem skipWs_cons_not (c : Char) (r : List Char) (h : isWs c = false) :
    skipWs (c :: r) = c :: r := by
  simp [skipWs, h]

theorem parseStringBody_escape (s : List Char) (rest : List Char) :
    parseStringBody (escapeChars s ++ '"' :: rest) = some (s, rest) := by
  induction s with
  | nil =>
    rw [escapeChars, List.nil_append, parseStringBody.eq_def]
    simp
  | cons c r ih =>
    by_cases h1 : c = '"'
    · subst h1
      have he : escChar '"' = ['\\', '"'] := by decide
      rw [escapeChars, he, List.cons_append, List.cons_append,
        parseStringBody.eq_def]
      simp [ih]
    · by_cases h2 : c = '\\'
      · subst h2
        have he : escChar '\\' = ['\\', '\\'] := by decide
        rw [escapeChars, he, List.cons_append, List.cons_append,
          parseStringBody.eq_def]
        simp [ih]
      · have he : escChar c = [c] := by simp [escChar, h1, h2]
        rw [escapeChars, he, List.cons_append, List.nil_append,
          parseStringBody.eq_def]
        simp [h1, h2, ih]

theorem parseJVal_qstr (s : String) (rest : List Char) :
    parseJVal (qstr s ++ rest) = some (JVal.str s, rest) := by
  rw [qstr, parseJVal.eq_def]
  simp only [List.cons_append, List.append_assoc]
  rw [skipWs_cons_not _ _ (by simp [isWs])]
  simp [parseStringBody_escape, mk_toList]

theorem renderElems_exists_head (x : String) (r : List String) :
    ∃ t, renderElems (x :: r) = '"' :: t := by
  match r with
  | [] => exact ⟨escapeChars x.toList ++ ['"'], by simp [renderElems, qstr]⟩
  | y :: r2 =>
    exact ⟨(escapeChars x.toList ++ ['"']) ++ ',' :: renderElems (y :: r2),
      by simp [renderElems, qstr]⟩

theorem renderElems_len (xs : List String) :
    xs.length ≤ (renderElems xs).length := by
  match xs with
  | [] => simp [renderElems]
  | [x] => rw [renderElems, qstr]; simp
  | x :: y :: r =>
    have ih := renderElems_len (y :: r)
    rw [renderElems, qstr]
    simp only [List.length_append, List.length_cons, List.cons_append,
      List.length_cons] at ih ⊢
    omega

theorem parseArrElems_render (xs : List String) (fuel : Nat) (rest : List Char)
    (hne : xs ≠ []) (hf : xs.length ≤ fuel) :
    parseArrElems fuel (renderElems xs ++ ']' :: rest) = some (xs, rest) := by
  match xs, fuel with
  | [], _ => exact absurd rfl hne
  | [x], fuel+1 =>
    rw [renderElems, qstr, parseArrElems.eq_def]
    simp only [List.cons_append, List.append_assoc]
    rw [skipWs_cons_not _ _ (by simp [isWs])]
    simp only [List.nil_append]
    simp [parseStringBody_escape, mk_toList, skipWs, isWs]
  | x :: y :: r, fuel+1 =>
    have ih : parseArrElems fuel (renderElems (y :: r) ++ ']' :: rest) =
        some (y :: r, rest) := by
      apply parseArrElems_render
      · simp
      · simp only [List.length_cons] at hf ⊢
        omega
    rw [renderElems, qstr, parseArrElems.eq_def]
    simp only [List.cons_append, List.append_assoc]
    rw [skipWs_cons_not _ _ (by simp [isWs])]
    simp only [List.nil_append]
    simp [parseStringBody_escape, mk_toList, skipWs, isWs, ih]

theorem parseArr_render (xs : List String) (rest : List Char) :
    parseArr (renderElems xs ++ ']' :: rest) = some (xs, rest) := by
  match xs with
  | [] =>
    rw [renderElems, List.nil_append, parseArr]
    rw [skipWs_cons_not _ _ (by simp [isWs])]
    simp
  | x :: r =>
    obtain ⟨t, ht⟩ := renderElems_exists_head x r
    have hlen := renderElems_len (x :: r)
    simp only [List.length_cons] at hlen
    have harr := parseArrElems_render (x :: r)
      ((renderElems (x :: r) ++ ']' :: rest).length + 1) rest (by simp)
      (by simp only [List.length_append, List.length_cons]; omega)
    rw [parseArr, ht, List.cons_append]
    rw [skipWs_cons_not _ _ (by simp [isWs])]
    rw [ht, List.cons_append] at harr
    simp only [List.length_cons, List.length_append] at harr ⊢
    simp [harr]

theorem parseJVal_render (v : JVal) (rest : List Char) :
    parseJVal (renderVal v ++ rest) = some (v, rest) := by
  match v with
  | JVal.str s => rw [renderVal]; exact parseJVal_qstr s rest
  | JVal.arr xs =>
    rw [renderVal, renderArr, parseJVal.eq_def]
    simp only [List.cons_append, List.append_assoc]
    rw [skipWs_cons_not _ _ (by simp [isWs])]
    have := parseArr_render xs rest
    simp only [List.append_assoc] at this ⊢
    simp [this]

theorem toList_mk (l : List Char) : (String.mk l).toList = l := rfl

theorem toList_append (a b : String) : (a ++ b).toList = a.toList ++ b.toList := rfl

theorem skipWs_space (z : List Char) : skipWs (' ' :: z) = skipWs z := by
  simp [skipWs, isWs]

theorem parseJVal_space (z : List Char) : parseJVal (' ' :: z) = parseJVal z := by
  rw [parseJVal.eq_def, skipWs_space]
  conv_rhs => rw [parseJVal.eq_def]

theorem parseMembers_space (f : Nat) (z : List Char) :
    parseMembers (f + 1) (' ' :: z) = parseMembers (f + 1) z := by
  rw [parseMembers, skipWs_space]
  conv_rhs => rw [parseMembers]

theorem renderMember_len (m : String × JVal) : 2 ≤ (renderMember m).length := by
  rw [renderMember, qstr]
  simp only [List.length_append, List.length_cons, List.cons_append]
  omega

theorem renderMembers_len (ms : List (String × JVal)) :
    ms.length ≤ (renderMembers ms).length := by
  match ms with
  | [] => simp [renderMembers]
  | [m] =>
    have := renderMember_len m
    rw [renderMembers]
    simp only [List.length_cons, List.length_nil]
    omega
  | m :: m2 :: r =>
    have ih := renderMembers_len (m2 :: r)
    have hm := renderMember_len m
    rw [renderMembers]
    simp only [List.length_append, List.length_cons] at ih hm ⊢
    omega

theorem renderMembers_exists_head (m : String × JVal)
    (r : List (String × JVal)) :
    ∃ t, renderMembers (m :: r) = '"' :: t := by
  match r with
  | [] =>
    exact ⟨(escapeChars m.1.toList ++ ['"']) ++ ':' :: ' ' :: renderVal m.2,
      by simp [renderMembers, renderMember, qstr]⟩
  | m2 :: r2 =>
    exact ⟨(escapeChars m.1.toList ++ ['"']) ++ ':' :: ' ' :: renderVal m.2 ++
        ',' :: ' ' :: renderMembers (m2 :: r2),
      by simp [renderMembers, renderMember, qstr]⟩

theorem parseMembers_render (ms : List (String × JVal)) (fuel : Nat)
    (rest : List Char) (hne : ms ≠ []) (hf : ms.length ≤ fuel) :
    parseMembers fuel (renderMembers ms ++ '\x7d' :: rest) = some (ms, rest) := by
  match ms, fuel with
  | [], _ => exact absurd rfl hne
  | [(k, v)], fuel+1 =>
    rw [renderMembers, renderMember, qstr, parseMembers.eq_def]
    simp only [List.cons_append, List.append_assoc, List.nil_append]
    rw [skipWs_cons_not _ _ (by simp [isWs])]
    simp [parseStringBody_escape, skipWs, isWs, parseJVal_space,
      parseJVal_render, mk_toList]
  | (k, v) :: m2 :: r, fuel+1 =>
    obtain ⟨f2, rfl⟩ : ∃ f2, fuel = f2 + 1 := by
      refine ⟨fuel - 1, ?_⟩
      simp only [List.length_cons] at hf
      omega
    have ih : parseMembers (f2 + 1) (renderMembers (m2 :: r) ++ '\x7d' :: rest) =
        some (m2 :: r, rest) := by
      apply parseMembers_render
      · simp
      · simp only [List.length_cons] at hf ⊢
        omega
    rw [renderMembers, renderMember, qstr, parseMembers.eq_def]
    simp only [List.cons_append, List.append_assoc, List.nil_append]
    rw [skipWs_cons_not _ _ (by simp [isWs])]
    simp [parseStringBody_escape, skipWs, isWs, parseJVal_space,
      parseJVal_render, mk_toList, parseMembers_space, ih]

theorem parseObj_render (ms : List (String × JVal)) (rest : List Char)
    (hne : ms ≠ []) :
    parseObj ('\x7b' :: (renderMembers ms ++ '\x7d' :: rest)) = some (ms, rest) := by
  match ms with
  | m :: r =>
    obtain ⟨t, ht⟩ := renderMembers_exists_head m r
    have hlen := renderMembers_len (m :: r)
    simp only [List.length_cons] at hlen
    have hmem := parseMembers_render (m :: r)
      ((renderMembers (m :: r) ++ '\x7d' :: rest).length + 1) rest (by simp)
      (by simp only [List.length_append, List.length_cons]; omega)
    rw [parseObj, ht, List.cons_append]
    rw [ht, List.cons_append] at hmem
    simp only [List.length_cons, List.length_append] at hmem ⊢
    simp [skipWs, isWs, hmem]

theorem buildImage_imageMembers (img : Image) :
    buildImage Image.zero (imageMembers img) = some img := by
  obtain ⟨i1, i2, i3, i4, i5⟩ := img
  rfl

theorem newImgJson_serialize (img : Image)
    (hrep : repNull (serializeImage img).toList = (serializeImage img).toList) :
    newImgJson (serializeImage img) = some img := by
  have hchars : (serializeImage img).toList =
      '\x7b' :: (renderMembers (imageMembers img) ++ '\x7d' :: []) := by
    simp [serializeImage, toList_mk]
  rw [newImgJson]
  simp only [hrep]
  rw [hchars, parseObj_render _ _ (by simp [imageMembers])]
  simp [buildImage_imageMembers, skipWs]

theorem serializeStream_len (imgs : List Image) :
    imgs.length ≤ (serializeStream imgs).toList.length := by
  match imgs with
  | [] => simp [serializeStream]
  | img :: r =>
    have ih := serializeStream_len r
    rw [serializeStream, toList_append]
    have h1 : 1 ≤ (serializeImage img).toList.length := by
      simp [serializeImage, toList_mk]
    simp only [List.length_append, List.length_cons] at ih h1 ⊢
    omega

theorem doDecodeStream_serialize (imgs : List Image) (fuel : Nat)
    (hf : imgs.length < fuel) :
    doDecodeStream fuel (serializeStream imgs).toList = some imgs := by
  match imgs, fuel with
  | [], fuel+1 =>
    have h0 : (serializeStream []).toList = [] := rfl
    rw [h0, doDecodeStream.eq_def]
    simp [skipWs]
  | img :: r, fuel+1 =>
    have ih : doDecodeStream fuel (serializeStream r).toList = some r := by
      apply doDecodeStream_serialize
      simp only [List.length_cons] at hf
      omega
    have hchars : (serializeImage img).toList =
        '\x7b' :: (renderMembers (imageMembers img) ++ ['\x7d']) := by
      simp [serializeImage, toList_mk]
    have hobj : parseObj ('\x7b' :: (renderMembers (imageMembers img) ++
        '\x7d' :: (serializeStream r).toList)) =
        some (imageMembers img, (serializeStream r).toList) :=
      parseObj_render _ _ (by simp [imageMembers])
    rw [serializeStream, toList_append, hchars, doDecodeStream.eq_def]
    simp only [List.cons_append, List.append_assoc, List.nil_append]
    rw [skipWs_cons_not _ _ (by simp [isWs])]
    simp only [List.cons_append, List.append_assoc, List.nil_append] at hobj
    simp only [String.toList] at hobj ih ⊢
    simp [hobj, buildImage_imageMembers, ih]

theorem newMultipleImgJson_serialize (imgs : List Image)
    (hrep : repNull (serializeStream imgs).toList =
      (serializeStream imgs).toList) :
    newMultipleImgJson (serializeStream imgs) = some imgs := by
  rw [newMultipleImgJson]
  simp only [hrep]
  exact doDecodeStream_serialize imgs _ (by
    have := serializeStream_len imgs
    omega)

/-- Event classifiers for request counting. -/
def isMetaPut : ReqEvent → Bool
  | ReqEvent.metaPut _ _ => true
  | _ => false

/-- Classifier for layer negotiation requests. -/
def isLayerNeg : ReqEvent → Bool
  | ReqEvent.layerNeg _ => true
  | _ => false

/-- Classifier for layer transfer requests. -/
def isLayerPut : ReqEvent → Bool
  | ReqEvent.layerPut _ _ _ _ _ => true
  | _ => false

theorem pushChain_append (env : SrvEnv) (c1 c2 : List Image) :
    pushChain env (c1 ++ c2) =
      ((pushChain env c1).1 ++ (pushChain env c2).1,
       (pushChain env c1).2 ++ (pushChain env c2).2) := by
  induction c1 with
  | nil => simp [pushChain]
  | cons img r ih => simp [pushChain, ih]

theorem pushImage_out_shape (env : SrvEnv) (img : Image) :
    (pushImage env img).2 = [PushOut.pushing img.id] ∨
    ∃ d, (pushImage env img).2 = [PushOut.pushing img.id, d] ∧
      d ≠ PushOut.pushing img.id := by
  unfold pushImage
  split
  · right; exact ⟨_, rfl, by simp⟩
  · split
    · right; exact ⟨_, rfl, by simp⟩
    · split
      · split
        · right; exact ⟨_, rfl, by simp⟩
        · split
          · split
            · right; exact ⟨_, rfl, by simp⟩
            · split
              · right; exact ⟨_, rfl, by simp⟩
              · split
                · right; exact ⟨_, rfl, by simp⟩
                · split
                  · left; rfl
                  · right; exact ⟨_, rfl, by simp⟩
          · right; exact ⟨_, rfl, by simp⟩
      · split
        · right; exact ⟨_, rfl, by simp⟩
        · split
          · right; exact ⟨_, rfl, by simp⟩
          · right; exact ⟨_, rfl, by simp⟩

theorem pushImage_events_shape (env : SrvEnv) (img : Image) :
    ((pushImage env img).1 = [] ∧ env.readJson img.id = none) ∨
    (∃ body, env.readJson img.id = some body ∧
      ((pushImage env img).1 = [ReqEvent.metaPut img.id body] ∨
       (pushImage env img).1 =
         [ReqEvent.metaPut img.id body, ReqEvent.layerNeg img.id] ∨
       ∃ loc bytes,
         (pushImage env img).1 =
           [ReqEvent.metaPut img.id body, ReqEvent.layerNeg img.id,
            ReqEvent.layerPut img.id loc bytes.length bytes ["none"]])) := by
  unfold pushImage
  split
  · rename_i hnone
    left; exact ⟨rfl, hnone⟩
  · rename_i body hbody
    right
    refine ⟨body, hbody, ?_⟩
    split
    · left; rfl
    · split
      · split
        · right; left; rfl
        · split
          · split
            · right; left; rfl
            · split
              · right; left; rfl
              · split
                · right; right; exact ⟨_, _, rfl⟩
                · split
                  · right; right; exact ⟨_, _, rfl⟩
                  · right; right; exact ⟨_, _, rfl⟩
          · right; left; rfl
      · split
        · left; rfl
        · split
          · left; rfl
          · left; rfl

theorem pushImage_counts (env : SrvEnv) (img : Image) :
    ((pushImage env img).1.filter isMetaPut).length ≤ 1 ∧
    ((pushImage env img).1.filter isLayerNeg).length ≤ 1 ∧
    ((pushImage env img).1.filter isLayerPut).length ≤ 1 ∧
    ((env.readJson img.id).isSome = true →
      ((pushImage env img).1.filter isMetaPut).length = 1) := by
  rcases pushImage_events_shape env img with ⟨he, hn⟩ | ⟨body, hb, he⟩
  · rw [he]
    simp [hn]
  · rcases he with he | he | ⟨loc, bytes, he⟩ <;>
      rw [he] <;> simp [isMetaPut, isLayerNeg, isLayerPut]

theorem pushImage_204_events (env : SrvEnv) (img : Image) (body : String)
    (hb : env.readJson img.id = some body)
    (h204 : env.metaPut img.id body = some 204) :
    (pushImage env img).1 = [ReqEvent.metaPut img.id body] := by
  unfold pushImage
  simp [hb, h204]

theorem pushImage_layer_source (env : SrvEnv) (i : Image) (e : ReqEvent)
    (hmem : e ∈ (pushImage env i).1)
    (hlayer : isLayerNeg e = true ∨ isLayerPut e = true) :
    ∃ body, env.readJson i.id = some body ∧
      env.metaPut i.id body ≠ some 204 ∧
      (∀ id2, e = ReqEvent.layerNeg id2 → id2 = i.id) ∧
      (∀ id2 loc n b te, e = ReqEvent.layerPut id2 loc n b te → id2 = i.id) := by
  rcases pushImage_events_shape env i with ⟨he, hn⟩ | ⟨body, hb, he⟩
  · rw [he] at hmem
    simp at hmem
  · refine ⟨body, hb, ?_, ?_, ?_⟩
    · intro h204
      rw [pushImage_204_events env i body hb h204] at hmem
      simp at hmem
      subst hmem
      simp [isLayerNeg, isLayerPut] at hlayer
    · intro id2 heq
      subst heq
      rcases he with he | he | ⟨loc, bytes, he⟩ <;> rw [he] at hmem <;>
        simp at hmem <;> simp [hmem]
    · intro id2 loc n b te heq
      subst heq
      rcases he with he | he | ⟨loc2, bytes, he⟩ <;> rw [he] at hmem <;>
        simp at hmem
      simp [hmem]

theorem pushChain_meta_count (env : SrvEnv) (chain : List Image)
    (hread : ∀ img ∈ chain, (env.readJson img.id).isSome = true) :
    ((pushChain env chain).1.filter isMetaPut).length = chain.length := by
  induction chain with
  | nil => simp [pushChain]
  | cons i r ih =>
    have hi := (pushImage_counts env i).2.2.2 (hread i (by simp))
    have hr := ih (fun img hm => hread img (by simp [hm]))
    simp only [pushChain, List.filter_append, List.length_append,
      List.length_cons]
    omega

theorem pushChain_layer_counts (env : SrvEnv) (chain : List Image) :
    ((pushChain env chain).1.filter isLayerNeg).length ≤ chain.length ∧
    ((pushChain env chain).1.filter isLayerPut).length ≤ chain.length := by
  induction chain with
  | nil => simp [pushChain]
  | cons i r ih =>
    have hi := pushImage_counts env i
    simp only [pushChain, List.filter_append, List.length_append,
      List.length_cons]
    omega

theorem pushChain_204_no_layer (env : SrvEnv) (chain : List Image)
    (id : String) (body : String)
    (hb : env.readJson id = some body)
    (h204 : env.metaPut id body = some 204) :
    ∀ e ∈ (pushChain env chain).1,
      e ≠ ReqEvent.layerNeg id ∧
      ∀ loc n b te, e ≠ ReqEvent.layerPut id loc n b te := by
  induction chain with
  | nil => simp [pushChain]
  | cons i r ih =>
    intro e hmem
    simp only [pushChain, List.mem_append] at hmem
    rcases hmem with hmem | hmem
    · constructor
      · intro heq
        subst heq
        obtain ⟨body2, hb2, hm2, hneg, _⟩ :=
          pushImage_layer_source env i _ hmem (Or.inl (by simp [isLayerNeg]))
        have hid := hneg id rfl
        subst hid
        rw [hb] at hb2
        cases hb2
        exact hm2 h204
      · intro loc n b te heq
        subst heq
        obtain ⟨body2, hb2, hm2, _, hput⟩ :=
          pushImage_layer_source env i _ hmem (Or.inr (by simp [isLayerPut]))
        have hid := hput id loc n b te rfl
        subst hid
        rw [hb] at hb2
        cases hb2
        exact hm2 h204
    · exact ih e hmem

theorem getRemoteImage_events (env : PullEnv) (id : String) :
    ∀ e ∈ (getRemoteImage env id).2,
      e = PullEvent.jsonGet id ∨ e = PullEvent.layerGet id := by
  unfold getRemoteImage
  split
  · simp
  · split
    · simp
    · split <;> simp

theorem getRemoteImage_ok_id (env : PullEnv) (id : String) (img : Image)
    (layer : String)
    (h : (getRemoteImage env id).1 = Except.ok (img, layer)) :
    img.id = id := by
  unfold getRemoteImage at h
  split at h
  · simp at h
  · split at h
    · simp at h
    · split at h
      · simp at h
      · simp at h
        rw [← h.1]

theorem register_mono (g : GraphState) (img : Image) (layer : String)
    (id : String) (h : g.existsId id = true) :
    (g.register img layer).existsId id = true := by
  simp only [GraphState.register, GraphState.existsId, List.any_append] at h ⊢
  simp [h]

theorem pullLoop_mono (env : PullEnv) (hist : List Image) (g : GraphState)
    (id : String) (h : g.existsId id = true) :
    (pullLoop env g hist).2.1.existsId id = true := by
  induction hist generalizing g with
  | nil => exact h
  | cons j rest ih =>
    rw [pullLoop]
    split
    · exact ih g h
    · split
      · exact h
      · rename_i img layer evs hok
        split
        · exact h
        · exact ih (g.register img layer) (register_mono g img layer id h)

theorem pullLoop_store_extends (env : PullEnv) (hist : List Image)
    (g : GraphState) :
    ∃ added, (pullLoop env g hist).2.1.store = g.store ++ added := by
  induction hist generalizing g with
  | nil => exact ⟨[], by simp [pullLoop]⟩
  | cons j rest ih =>
    rw [pullLoop]
    split
    · exact ih g
    · split
      · exact ⟨[], by simp⟩
      · rename_i img layer evs hok
        split
        · exact ⟨[], by simp⟩
        · obtain ⟨added, ha⟩ := ih (g.register img layer)
          simp only [GraphState.register] at ha
          exact ⟨(img.id, img, layer) :: added, by
            simp only [GraphState.register]
            simp [ha]⟩

theorem pullLoop_skip (env : PullEnv) (g : GraphState) (j : Image)
    (rest : List Image) (h : g.existsId j.id = true) :
    pullLoop env g (j :: rest) = pullLoop env g rest := by
  rw [pullLoop]
  simp [h]

theorem pullLoop_error_decomp (env : PullEnv) (hist : List Image)
    (g : GraphState) (e : PullErr)
    (h : (pullLoop env g hist).1 = some e) :
    ∃ pre x post, hist = pre ++ x :: post ∧
      (pullLoop env g pre).1 = none ∧
      (pullLoop env g hist).2.1 = (pullLoop env g pre).2.1 ∧
      ∃ evs, (pullLoop env g hist).2.2 = (pullLoop env g pre).2.2 ++ evs ∧
        ∀ ev ∈ evs, ev = PullEvent.jsonGet x.id ∨
          ev = PullEvent.layerGet x.id ∨ ev = PullEvent.registerCall x.id := by
  induction hist generalizing g with
  | nil => simp [pullLoop] at h
  | cons j rest ih =>
    by_cases hex : g.existsId j.id = true
    · rw [pullLoop_skip env g j rest hex] at h ⊢
      obtain ⟨pre, x, post, hsplit, hpre, hgr, evs, hevs, hall⟩ := ih g h
      refine ⟨j :: pre, x, post, by simp [hsplit], ?_, ?_, evs, ?_, hall⟩ <;>
        rw [pullLoop_skip env g j pre hex]
      · exact hpre
      · exact hgr
      · exact hevs
    · rcases hget : getRemoteImage env j.id with ⟨res, evs0⟩
      rcases res with e0 | ⟨img, layer⟩
      · have hstep : pullLoop env g (j :: rest) = (some e0, g, evs0) := by
          rw [pullLoop]
          simp [hex, hget]
        refine ⟨[], j, rest, rfl, by simp [pullLoop], ?_, evs0, ?_, ?_⟩
        · rw [hstep]
          simp [pullLoop]
        · rw [hstep]
          simp [pullLoop]
        · intro ev hev
          rcases getRemoteImage_events env j.id ev (by rw [hget]; exact hev)
            with hj | hl
          · exact Or.inl hj
          · exact Or.inr (Or.inl hl)
      · have hid : img.id = j.id :=
          getRemoteImage_ok_id env j.id img layer (by rw [hget])
        by_cases hrf : env.regFail img layer = true
        · have hstep : pullLoop env g (j :: rest) =
              (some (PullErr.registerFailed img.id), g,
               evs0 ++ [PullEvent.registerCall img.id]) := by
            rw [pullLoop]
            simp [hex, hget, hrf]
          refine ⟨[], j, rest, rfl, by simp [pullLoop], ?_,
            evs0 ++ [PullEvent.registerCall img.id], ?_, ?_⟩
          · rw [hstep]
            simp [pullLoop]
          · rw [hstep]
            simp [pullLoop]
          · intro ev hev
            rcases List.mem_append.1 hev with hev | hev
            · rcases getRemoteImage_events env j.id ev
                (by rw [hget]; exact hev) with hj | hl
              · exact Or.inl hj
              · exact Or.inr (Or.inl hl)
            · simp at hev
              subst hev
              exact Or.inr (Or.inr (by rw [hid]))
        · have hstep : pullLoop env g (j :: rest) =
              ((pullLoop env (g.register img layer) rest).1,
               (pullLoop env (g.register img layer) rest).2.1,
               (evs0 ++ [PullEvent.registerCall img.id]) ++
                 (pullLoop env (g.register img layer) rest).2.2) := by
            rw [pullLoop]
            simp [hex, hget, hrf]
          rw [hstep] at h
          simp only [] at h
          obtain ⟨pre, x, post, hsplit, hpre, hgr, evs, hevs, hall⟩ :=
            ih (g.register img layer) h
          have hjpre : pullLoop env g (j :: pre) =
              ((pullLoop env (g.register img layer) pre).1,
               (pullLoop env (g.register img layer) pre).2.1,
               (evs0 ++ [PullEvent.registerCall img.id]) ++
                 (pullLoop env (g.register img layer) pre).2.2) := by
            rw [pullLoop]
            simp [hex, hget, hrf]
          refine ⟨j :: pre, x, post, by simp [hsplit], ?_, ?_, evs, ?_, hall⟩
          · rw [hjpre]
            simpa using hpre
          · rw [hstep, hjpre]
            simpa using hgr
          · rw [hstep, hjpre]
            simp only []
            rw [hevs]
            simp

theorem pullLoop_no_events_existing (env : PullEnv) (hist : List Image)
    (g : GraphState) (id : String) (h : g.existsId id = true) :
    ∀ ev ∈ (pullLoop env g hist).2.2,
      ev ≠ PullEvent.jsonGet id ∧ ev ≠ PullEvent.layerGet id ∧
      ev ≠ PullEvent.registerCall id := by
  induction hist generalizing g with
  | nil => simp [pullLoop]
  | cons j rest ih =>
    by_cases hex : g.existsId j.id = true
    · rw [pullLoop_skip env g j rest hex]
      exact ih g h
    · have hjid : j.id ≠ id := by
        intro heq
        rw [heq] at hex
        exact hex h
      rcases hget : getRemoteImage env j.id with ⟨res, evs0⟩
      have hevs0 : ∀ ev ∈ evs0,
          ev = PullEvent.jsonGet j.id ∨ ev = PullEvent.layerGet j.id := by
        intro ev hev
        exact getRemoteImage_events env j.id ev (by rw [hget]; exact hev)
      rcases res with e0 | ⟨img, layer⟩
      · have hstep : pullLoop env g (j :: rest) = (some e0, g, evs0) := by
          rw [pullLoop]
          simp [hex, hget]
        rw [hstep]
        intro ev hev
        rcases hevs0 ev hev with he | he <;> subst he <;>
          exact ⟨by simp [hjid], by simp [hjid], by simp⟩
      · have hid : img.id = j.id :=
          getRemoteImage_ok_id env j.id img layer (by rw [hget])
        by_cases hrf : env.regFail img layer = true
        · have hstep : pullLoop env g (j :: rest) =
              (some (PullErr.registerFailed img.id), g,
               evs0 ++ [PullEvent.registerCall img.id]) := by
            rw [pullLoop]
            simp [hex, hget, hrf]
          rw [hstep]
          intro ev hev
          simp only [List.mem_append] at hev
          rcases hev with hev | hev
          · rcases hevs0 ev hev with he | he <;> subst he <;>
              exact ⟨by simp [hjid], by simp [hjid], by simp⟩
          · simp at hev
            subst hev
            exact ⟨by simp, by simp, by simp [hid, hjid]⟩
        · have hstep : pullLoop env g (j :: rest) =
              ((pullLoop env (g.register img layer) rest).1,
               (pullLoop env (g.register img layer) rest).2.1,
               (evs0 ++ [PullEvent.registerCall img.id]) ++
                 (pullLoop env (g.register img layer) rest).2.2) := by
            rw [pullLoop]
            simp [hex, hget, hrf]
          rw [hstep]
          intro ev hev
          simp only [List.mem_append] at hev
          rcases hev with (hev | hev) | hev
          · rcases hevs0 ev hev with he | he <;> subst he <;>
              exact ⟨by simp [hjid], by simp [hjid], by simp⟩
          · simp at hev
            subst hev
            exact ⟨by simp, by simp, by simp [hid, hjid]⟩
          · exact ih (g.register img layer)
              (register_mono g img layer id h) ev hev

theorem str_append_empty (s : String) : s ++ "" = s := by
  cases s
  show String.mk (_ ++ []) = _
  rw [List.append_nil]

theorem serializeStream_single (img : Image) :
    serializeStream [img] = serializeImage img := by
  rw [serializeStream, serializeStream, str_append_empty]

/-- The registry as a pull environment after one image was pushed in full: a
faithful key-value store serves back, for that id, the exact metadata bytes
received by the metadata PUT and the exact layer bytes received by the layer
PUT; the history manifest of a single-image chain is that one json record;
its storage backend does not fail registration. -/
def pushedRegistry (id jsonRaw layer : String) : PullEnv :=
  { histGet := fun i => if i = id then some jsonRaw else none,
    jsonGet := fun i => if i = id then some jsonRaw else none,
    layerGet := fun i => if i = id then some layer else none,
    regFail := fun _ _ => false }

/-- A push environment for one image: the graph holds the image, its
serialized json and its layer archive, and the registry accepts every phase
(metadata PUT 200, negotiation 307 with a Location, layer PUT 200). -/
def acceptingSrv (img : Image) (layer loc : String) : SrvEnv :=
  { get := fun i => if i = img.id then some img else none,
    readJson := fun i => if i = img.id then some (serializeImage img) else none,
    tarLayer := fun i => if i = img.id then some layer else none,
    metaPut := fun _ _ => some 200,
    layerNeg := fun _ => some (307, some loc),
    layerPut := fun _ _ => some 200 }

theorem pushImage_accepting (img : Image) (layer loc : String) :
    pushImage (acceptingSrv img layer loc) img =
      ([ReqEvent.metaPut img.id (serializeImage img), ReqEvent.layerNeg img.id,
        ReqEvent.layerPut img.id loc layer.length layer ["none"]],
       [PushOut.pushing img.id]) := by
  rw [pushImage]
  simp [acceptingSrv]

theorem cmdPulli_pushedRegistry (img : Image) (layer : String)
    (hrep : repNull (serializeImage img).toList = (serializeImage img).toList) :
    CmdPulli (pushedRegistry img.id (serializeImage img) layer) ⟨[]⟩ img.id =
      (none, ⟨[(img.id, img, layer)]⟩,
       [PullEvent.histGet img.id, PullEvent.jsonGet img.id,
        PullEvent.layerGet img.id, PullEvent.registerCall img.id]) := by
  have hdec : newMultipleImgJson (serializeImage img) = some [img] := by
    rw [← serializeStream_single img]
    exact newMultipleImgJson_serialize [img]
      (by rw [serializeStream_single]; exact hrep)
  have hone : newImgJson (serializeImage img) = some img :=
    newImgJson_serialize img hrep
  have hex : (⟨[]⟩ : GraphState).existsId img.id = false := rfl
  have hforce : ({ img with id := img.id } : Image) = img := rfl
  rw [CmdPulli, getHistory]
  simp only [pushedRegistry]
  simp [hdec]
  rw [pullLoop.eq_def]
  simp only [hex, Bool.false_eq_true, not_false_eq_true, if_neg]
  rw [getRemoteImage]
  simp [hone, hforce, pullLoop, GraphState.register]

/-- C6: the metadata decoder is null-tolerant: the payload with literal null
for id and comment decodes without error to an Image with id empty, parent
abc, comment empty — the nulls are normalized to empty strings by the
replacement performed before structural decoding. -/
theorem null_tolerant_decode :
    newImgJson "\x7b\"id\": null, \"parent\": \"abc\", \"comment\": null\x7d" =
      some ⟨"", "abc", "", [], ""⟩ := by
  decide

/-- C9 counterexample: at the claim's own example — a well-formed payload
whose comment value contains null as the substring nullable — decoding does
not yield a value with the substring replaced by a pair of double quotes: it
fails with an error (the replacement corrupts the quoted string and the
structural decode rejects the result). -/
theorem nullable_value_decode_cex :
    newImgJson "\x7b\"id\": \"a\", \"comment\": \"nullable\"\x7d" = none := by
  decide

/-- C9 amended: the null normalization replaces every occurrence of the
4-character substring null anywhere in the raw payload, including inside
quoted string values (first conjunct: the replacement fires at any position
regardless of context; second: the claim's example payload has its quoted
comment value mangled); but for such a payload decoding then fails with an
error rather than yielding a value with the substring replaced. -/
theorem null_replace_in_quotes :
    (∀ s : List Char,
      repNull ('n' :: 'u' :: 'l' :: 'l' :: s) = '"' :: '"' :: repNull s) ∧
    repNull ("\x7b\"id\": \"a\", \"comment\": \"nullable\"\x7d".toList) =
      ("\x7b\"id\": \"a\", \"comment\": \"\"\"able\"\x7d".toList) ∧
    newImgJson "\x7b\"id\": \"a\", \"comment\": \"nullable\"\x7d" = none := by
  refine ⟨fun s => rfl, by decide, by decide⟩

/-- C7 counterexample: the history-manifest decoder is not keyed by id: a
stream of two well-formed records sharing the id a yields, as an unordered
collection (stated up to permutation, since the Go map iterates in no fixed
order), two distinct records with the same id — the map is keyed by
pointer, so duplicates by id are all retained, which a collection keyed by
id could not do. -/
theorem manifest_duplicate_id_cex :
    (∃ l, newMultipleImgJson
        "\x7b\"id\": \"a\", \"comment\": \"x\"\x7d\x7b\"id\": \"a\", \"comment\": \"y\"\x7d" =
        some l ∧
      List.Perm l [⟨"a", "", "", [], "x"⟩, ⟨"a", "", "", [], "y"⟩]) ∧
    (⟨"a", "", "", [], "x"⟩ : Image).id = (⟨"a", "", "", [], "y"⟩ : Image).id ∧
    (⟨"a", "", "", [], "x"⟩ : Image) ≠ (⟨"a", "", "", [], "y"⟩ : Image) := by
  refine ⟨⟨[⟨"a", "", "", [], "x"⟩, ⟨"a", "", "", [], "y"⟩], by decide,
    List.Perm.refl _⟩, rfl, by decide⟩

/-- C7 amended: decoding a history manifest — a stream of concatenated JSON
objects — yields exactly the multiset of Image records of the stream, keyed
by record identity (duplicate ids retained, iteration order unspecified:
the result is stated only up to permutation); it stops cleanly without
error at end of stream (second and third conjuncts: empty and
whitespace-only streams), and it fails with an error on a malformed record
in the stream (last conjunct). -/
theorem manifest_stream_decode (imgs : List Image)
    (hrep : repNull (serializeStream imgs).toList =
      (serializeStream imgs).toList) :
    (∃ l, newMultipleImgJson (serializeStream imgs) = some l ∧
      List.Perm l imgs) ∧
    newMultipleImgJson "" = some [] ∧
    newMultipleImgJson " \n " = some [] ∧
    newMultipleImgJson "\x7b\"id\": \"a\"\x7d\x7b\"id\"" = none :=
  ⟨⟨imgs, newMultipleImgJson_serialize imgs hrep, List.Perm.refl imgs⟩,
    by decide, by decide, by decide⟩

/-- C7 witness: a concrete two-record stream (with duplicate ids, both
retained) satisfying the hypothesis of the stream-decode theorem. -/
theorem manifest_stream_decode_witness :
    (repNull (serializeStream [⟨"a", "p", "t", ["c"], "x"⟩,
        ⟨"a", "", "", [], "x"⟩]).toList =
      (serializeStream [⟨"a", "p", "t", ["c"], "x"⟩,
        ⟨"a", "", "", [], "x"⟩]).toList) ∧
    ∃ l, newMultipleImgJson (serializeStream [⟨"a", "p", "t", ["c"], "x"⟩,
        ⟨"a", "", "", [], "x"⟩]) = some l ∧
      List.Perm l [⟨"a", "p", "t", ["c"], "x"⟩, ⟨"a", "", "", [], "x"⟩] :=
  ⟨by decide,
    (manifest_stream_decode [⟨"a", "p", "t", ["c"], "x"⟩,
      ⟨"a", "", "", [], "x"⟩] (by decide)).1⟩

/-- C5 counterexample: an image whose comment is the string null is pushed
in full (metadata PUT 200, negotiation 307 with Location, layer PUT 200 —
first conjunct shows the complete three-request exchange), yet the
subsequent pull of that id by a fresh local graph registers nothing at all:
the null normalization corrupts the manifest bytes the registry serves
back, the decode fails, and pull returns an error with the graph still
empty — so the pulled state is not byte-identical to the originals. -/
theorem roundtrip_null_metadata_cex :
    pushImage (acceptingSrv ⟨"a", "", "", [], "null"⟩ "LL" "loc")
        ⟨"a", "", "", [], "null"⟩ =
      ([ReqEvent.metaPut "a" (serializeImage ⟨"a", "", "", [], "null"⟩),
        ReqEvent.layerNeg "a",
        ReqEvent.layerPut "a" "loc" 2 "LL" ["none"]],
       [PushOut.pushing "a"]) ∧
    CmdPulli (pushedRegistry "a" (serializeImage ⟨"a", "", "", [], "null"⟩)
        "LL") ⟨[]⟩ "a" =
      (some PullErr.parseHistory, ⟨[]⟩, [PullEvent.histGet "a"]) := by
  refine ⟨by decide, by decide⟩

/-- C5 amended: round-trip holds for every image whose serialized metadata
is left unchanged by the null normalization: the full push transmits exactly
the graph's json bytes and layer bytes (first conjunct), and the subsequent
pull of that id by a fresh local graph completes without error and registers
metadata equal to the original image record and layer bytes identical to the
pushed archive (second conjunct). -/
theorem roundtrip_push_pull (img : Image) (layer loc : String)
    (hrep : repNull (serializeImage img).toList = (serializeImage img).toList) :
    pushImage (acceptingSrv img layer loc) img =
      ([ReqEvent.metaPut img.id (serializeImage img), ReqEvent.layerNeg img.id,
        ReqEvent.layerPut img.id loc layer.length layer ["none"]],
       [PushOut.pushing img.id]) ∧
    CmdPulli (pushedRegistry img.id (serializeImage img) layer) ⟨[]⟩ img.id =
      (none, ⟨[(img.id, img, layer)]⟩,
       [PullEvent.histGet img.id, PullEvent.jsonGet img.id,
        PullEvent.layerGet img.id, PullEvent.registerCall img.id]) :=
  ⟨pushImage_accepting img layer loc, cmdPulli_pushedRegistry img layer hrep⟩

/-- C5 witness: a concrete null-free image for which the round-trip theorem
applies. -/
theorem roundtrip_push_pull_witness :
    (repNull (serializeImage ⟨"a", "p", "t", ["c1"], "hello"⟩).toList =
      (serializeImage ⟨"a", "p", "t", ["c1"], "hello"⟩).toList) ∧
    CmdPulli (pushedRegistry "a"
        (serializeImage ⟨"a", "p", "t", ["c1"], "hello"⟩) "LY") ⟨[]⟩ "a" =
      (none, ⟨[("a", ⟨"a", "p", "t", ["c1"], "hello"⟩, "LY")]⟩,
       [PullEvent.histGet "a", PullEvent.jsonGet "a",
        PullEvent.layerGet "a", PullEvent.registerCall "a"]) :=
  ⟨by decide,
    (roundtrip_push_pull ⟨"a", "p", "t", ["c1"], "hello"⟩ "LY" "lo"
      (by decide)).2⟩

/-- C1: push never aborts the chain. First conjunct: CmdPush returns nil
(no error) on every input, so in particular it never returns a non-nil
error after iteration has started. Second conjunct: the walk distributes
over concatenation — the requests and output produced for a suffix of the
chain are the same whatever happened on the prefix, so a failure in any
phase of one image does not abort or alter the processing of the remaining
ancestors. Third conjunct: every image's processing emits its per-image
progress line, followed by exactly one per-image notice or diagnostic
whenever the three-phase upload did not complete cleanly. -/
theorem push_continue_on_error :
    (∀ (env : SrvEnv) (fuel : Nat) (name : String),
      (CmdPush env fuel name).1 = none) ∧
    (∀ (env : SrvEnv) (c1 c2 : List Image),
      pushChain env (c1 ++ c2) =
        ((pushChain env c1).1 ++ (pushChain env c2).1,
         (pushChain env c1).2 ++ (pushChain env c2).2)) ∧
    (∀ (env : SrvEnv) (img : Image),
      (pushImage env img).2 = [PushOut.pushing img.id] ∨
      ∃ d, (pushImage env img).2 = [PushOut.pushing img.id, d] ∧
        d ≠ PushOut.pushing img.id) := by
  refine ⟨?_, pushChain_append, pushImage_out_shape⟩
  intro env fuel name
  rcases h : env.get name with _ | img <;> simp [CmdPush, h]

/-- C3: for every image chain of length N whose metadata is readable from
the graph, push attempts exactly N metadata PUTs (one per ancestor), and at
most N layer negotiations and at most N layer transfers; and for every
chain image whose metadata PUT answers 204, no layer negotiation and no
layer transfer request carrying that id is issued anywhere in the chain. -/
theorem push_request_counts (env : SrvEnv) (chain : List Image)
    (hread : ∀ img ∈ chain, (env.readJson img.id).isSome = true) :
    ((pushChain env chain).1.filter isMetaPut).length = chain.length ∧
    ((pushChain env chain).1.filter isLayerNeg).length ≤ chain.length ∧
    ((pushChain env chain).1.filter isLayerPut).length ≤ chain.length ∧
    ∀ img ∈ chain, ∀ body, env.readJson img.id = some body →
      env.metaPut img.id body = some 204 →
      ∀ e ∈ (pushChain env chain).1,
        e ≠ ReqEvent.layerNeg img.id ∧
        ∀ loc n b te, e ≠ ReqEvent.layerPut img.id loc n b te := by
  refine ⟨pushChain_meta_count env chain hread,
    (pushChain_layer_counts env chain).1,
    (pushChain_layer_counts env chain).2, ?_⟩
  intro img hm body hb h204
  exact pushChain_204_no_layer env chain img.id body hb h204

/-- C3 witness: a two-image chain where a answers 204 (so only b, which
answers 200, negotiates and transfers): exactly 2 metadata PUTs, at most 2
negotiations and transfers, and no layer request for a. -/
theorem push_request_counts_witness :
    (∀ img ∈ ([⟨"a", "", "", [], ""⟩, ⟨"b", "a", "", [], ""⟩] : List Image),
      ((⟨fun _ => none,
        fun i => if i = "a" then some "JA" else some "JB",
        fun _ => some "TT",
        fun i _ => if i = "a" then some 204 else some 200,
        fun _ => some (307, some "loc"),
        fun _ _ => some 200⟩ : SrvEnv).readJson img.id).isSome = true) ∧
    (((pushChain (⟨fun _ => none,
        fun i => if i = "a" then some "JA" else some "JB",
        fun _ => some "TT",
        fun i _ => if i = "a" then some 204 else some 200,
        fun _ => some (307, some "loc"),
        fun _ _ => some 200⟩ : SrvEnv)
        [⟨"a", "", "", [], ""⟩, ⟨"b", "a", "", [], ""⟩]).1.filter
          isMetaPut).length =
      ([⟨"a", "", "", [], ""⟩, ⟨"b", "a", "", [], ""⟩] : List Image).length ∧
     ((pushChain (⟨fun _ => none,
        fun i => if i = "a" then some "JA" else some "JB",
        fun _ => some "TT",
        fun i _ => if i = "a" then some 204 else some 200,
        fun _ => some (307, some "loc"),
        fun _ _ => some 200⟩ : SrvEnv)
        [⟨"a", "", "", [], ""⟩, ⟨"b", "a", "", [], ""⟩]).1.filter
          isLayerNeg).length ≤
      ([⟨"a", "", "", [], ""⟩, ⟨"b", "a", "", [], ""⟩] : List Image).length ∧
     ((pushChain (⟨fun _ => none,
        fun i => if i = "a" then some "JA" else some "JB",
        fun _ => some "TT",
        fun i _ => if i = "a" then some 204 else some 200,
        fun _ => some (307, some "loc"),
        fun _ _ => some 200⟩ : SrvEnv)
        [⟨"a", "", "", [], ""⟩, ⟨"b", "a", "", [], ""⟩]).1.filter
          isLayerPut).length ≤
      ([⟨"a", "", "", [], ""⟩, ⟨"b", "a", "", [], ""⟩] : List Image).length ∧
     ∀ img ∈ ([⟨"a", "", "", [], ""⟩, ⟨"b", "a", "", [], ""⟩] : List Image),
       ∀ body, (⟨fun _ => none,
        fun i => if i = "a" then some "JA" else some "JB",
        fun _ => some "TT",
        fun i _ => if i = "a" then some 204 else some 200,
        fun _ => some (307, some "loc"),
        fun _ _ => some 200⟩ : SrvEnv).readJson img.id = some body →
        (⟨fun _ => none,
        fun i => if i = "a" then some "JA" else some "JB",
        fun _ => some "TT",
        fun i _ => if i = "a" then some 204 else some 200,
        fun _ => some (307, some "loc"),
        fun _ _ => some 200⟩ : SrvEnv).metaPut img.id body = some 204 →
        ∀ e ∈ (pushChain (⟨fun _ => none,
          fun i => if i = "a" then some "JA" else some "JB",
          fun _ => some "TT",
          fun i _ => if i = "a" then some 204 else some 200,
          fun _ => some (307, some "loc"),
          fun _ _ => some 200⟩ : SrvEnv)
          [⟨"a", "", "", [], ""⟩, ⟨"b", "a", "", [], ""⟩]).1,
          e ≠ ReqEvent.layerNeg img.id ∧
          ∀ loc n b te, e ≠ ReqEvent.layerPut img.id loc n b te) :=
  ⟨by decide, push_request_counts _ _ (by decide)⟩

/-- C8: every layer transfer PUT issued by push declares a Content-Length
equal to the exact byte length of the compressed layer archive sent as its
body, and disables chunked transfer encoding (TransferEncoding none). -/
theorem layer_put_content_length (env : SrvEnv) (img : Image)
    (id loc : String) (n : Nat) (body : String) (te : List String)
    (h : ReqEvent.layerPut id loc n body te ∈ (pushImage env img).1) :
    n = body.length ∧ te = ["none"] := by
  rcases pushImage_events_shape env img with ⟨he, _⟩ | ⟨b, hb, he⟩
  · rw [he] at h
    simp at h
  · rcases he with he | he | ⟨loc2, bytes, he⟩ <;> rw [he] at h <;> simp at h
    obtain ⟨h1, h2, hn, hbody, hte⟩ := h
    constructor <;> simp_all

/-- C8 witness: a concrete successful push whose layer PUT carries the exact
archive length 2 for the 2-byte archive LL and disables chunked encoding. -/
theorem layer_put_content_length_witness :
    ReqEvent.layerPut "a" "loc" 2 "LL" ["none"] ∈
      (pushImage (acceptingSrv (⟨"a", "", "", [], ""⟩ : Image) "LL" "loc")
        (⟨"a", "", "", [], ""⟩ : Image)).1 ∧
    (2 = ("LL" : String).length ∧ (["none"] : List String) = ["none"]) :=
  ⟨by decide, layer_put_content_length
    (acceptingSrv (⟨"a", "", "", [], ""⟩ : Image) "LL" "loc")
    (⟨"a", "", "", [], ""⟩ : Image) "a" "loc" 2 "LL" ["none"] (by decide)⟩

/-- C10: when the leaf image cannot be resolved from the local graph,
CmdPush returns nil with no output line and no network request — the same
nil error value a completed push returns, so the caller cannot tell the two
apart from the returned value. -/
theorem push_silent_missing (env : SrvEnv) (fuel : Nat) (name : String)
    (h : env.get name = none) :
    CmdPush env fuel name = (none, [], []) := by
  simp [CmdPush, h]

/-- C10 witness: a graph that resolves nothing. -/
theorem push_silent_missing_witness :
    (⟨fun _ => none, fun _ => none, fun _ => none, fun _ _ => none,
      fun _ => none, fun _ _ => none⟩ : SrvEnv).get "x" = none ∧
    CmdPush (⟨fun _ => none, fun _ => none, fun _ => none, fun _ _ => none,
      fun _ => none, fun _ _ => none⟩ : SrvEnv) 3 "x" = (none, [], []) :=
  ⟨rfl, push_silent_missing _ 3 "x" rfl⟩

/-- C2: any error at any pull step aborts the whole pull immediately and is
returned to the caller, with the local graph exactly as it was before the
failing step. Either the failure is in fetching or decoding the history
manifest — then the graph is untouched and only the history GET was issued —
or the manifest decoded to a list and the loop failed at some record x:
everything before x was processed successfully, the final graph is exactly
the graph after that successful prefix (the failing step changed nothing),
that graph extends the initial one (earlier registrations remain), and the
only requests after the prefix concern x itself — no later manifest record
is fetched or registered. -/
theorem pull_abort_on_error (env : PullEnv) (g : GraphState) (name : String)
    (e : PullErr) (h : (CmdPulli env g name).1 = some e) :
    ((CmdPulli env g name).2.1 = g ∧
     (CmdPulli env g name).2.2 = [PullEvent.histGet name]) ∨
    ∃ hist pre x post, hist = pre ++ x :: post ∧
      getHistory env name = (Except.ok hist, [PullEvent.histGet name]) ∧
      (pullLoop env g pre).1 = none ∧
      (CmdPulli env g name).2.1 = (pullLoop env g pre).2.1 ∧
      (∃ added, (CmdPulli env g name).2.1.store = g.store ++ added) ∧
      ∃ evs, (CmdPulli env g name).2.2 =
          PullEvent.histGet name :: ((pullLoop env g pre).2.2 ++ evs) ∧
        ∀ ev ∈ evs, ev = PullEvent.jsonGet x.id ∨
          ev = PullEvent.layerGet x.id ∨ ev = PullEvent.registerCall x.id := by
  rcases hh : env.histGet name with _ | body
  · have hstep : CmdPulli env g name =
        (some PullErr.transportHistory, g, [PullEvent.histGet name]) := by
      rw [CmdPulli, getHistory]
      simp [hh]
    rw [hstep]
    exact Or.inl ⟨rfl, rfl⟩
  · rcases hm : newMultipleImgJson body with _ | hist
    · have hstep : CmdPulli env g name =
          (some PullErr.parseHistory, g, [PullEvent.histGet name]) := by
        rw [CmdPulli, getHistory]
        simp [hh, hm]
      rw [hstep]
      exact Or.inl ⟨rfl, rfl⟩
    · have hstep : CmdPulli env g name =
          ((pullLoop env g hist).1, (pullLoop env g hist).2.1,
           PullEvent.histGet name :: (pullLoop env g hist).2.2) := by
        rw [CmdPulli, getHistory]
        simp [hh, hm]
      rw [hstep] at h
      simp only [] at h
      obtain ⟨pre, x, post, hsplit, hpre, hgr, evs, hevs, hall⟩ :=
        pullLoop_error_decomp env hist g e h
      right
      refine ⟨hist, pre, x, post, hsplit, ?_, hpre, ?_, ?_, evs, ?_, hall⟩
      · rw [getHistory]
        simp [hh, hm]
      · rw [hstep]
        simpa using hgr
      · obtain ⟨added, ha⟩ := pullLoop_store_extends env pre g
        refine ⟨added, ?_⟩
        rw [hstep]
        simp only []
        rw [hgr, ha]
      · rw [hstep]
        simp only []
        rw [hevs]

/-- C4: for every id already present in the local graph, pull issues no GET
for that id's json, no GET for its layer, and never calls Register for it —
only absent ids are fetched and registered. -/
theorem pull_skips_existing (env : PullEnv) (g : GraphState)
    (name id : String) (h : g.existsId id = true) :
    ∀ ev ∈ (CmdPulli env g name).2.2,
      ev ≠ PullEvent.jsonGet id ∧ ev ≠ PullEvent.layerGet id ∧
      ev ≠ PullEvent.registerCall id := by
  rcases hh : env.histGet name with _ | body
  · have hstep : CmdPulli env g name =
        (some PullErr.transportHistory, g, [PullEvent.histGet name]) := by
      rw [CmdPulli, getHistory]
      simp [hh]
    rw [hstep]
    simp
  · rcases hm : newMultipleImgJson body with _ | hist
    · have hstep : CmdPulli env g name =
          (some PullErr.parseHistory, g, [PullEvent.histGet name]) := by
        rw [CmdPulli, getHistory]
        simp [hh, hm]
      rw [hstep]
      simp
    · have hstep : CmdPulli env g name =
          ((pullLoop env g hist).1, (pullLoop env g hist).2.1,
           PullEvent.histGet name :: (pullLoop env g hist).2.2) := by
        rw [CmdPulli, getHistory]
        simp [hh, hm]
      rw [hstep]
      intro ev hev
      simp only [List.mem_cons] at hev
      rcases hev with hev | hev
      · subst hev
        exact ⟨by simp, by simp, by simp⟩
      · exact pullLoop_no_events_existing env hist g id h ev hev

/-- A registry for the pull-abort scenario: the history for c lists a and b,
a's json and layer are served, but b's json GET fails in transport. -/
def wPullEnvC2 : PullEnv :=
  ⟨fun i => if i = "c" then some "\x7b\"id\": \"a\"\x7d\x7b\"id\": \"b\"\x7d"
      else none,
   fun i => if i = "a" then some "\x7b\"id\": \"a\"\x7d" else none,
   fun i => if i = "a" then some "LA" else none,
   fun _ _ => false⟩

/-- C2 witness: pulling c against an empty graph registers a and then
aborts with a transport error on b's json GET. -/
theorem pull_abort_on_error_witness :
    (CmdPulli wPullEnvC2 ⟨[]⟩ "c").1 = some (PullErr.transportJson "b") ∧
    (((CmdPulli wPullEnvC2 ⟨[]⟩ "c").2.1 = ⟨[]⟩ ∧
      (CmdPulli wPullEnvC2 ⟨[]⟩ "c").2.2 = [PullEvent.histGet "c"]) ∨
     ∃ hist pre x post, hist = pre ++ x :: post ∧
       getHistory wPullEnvC2 "c" = (Except.ok hist, [PullEvent.histGet "c"]) ∧
       (pullLoop wPullEnvC2 ⟨[]⟩ pre).1 = none ∧
       (CmdPulli wPullEnvC2 ⟨[]⟩ "c").2.1 =
         (pullLoop wPullEnvC2 ⟨[]⟩ pre).2.1 ∧
       (∃ added, (CmdPulli wPullEnvC2 ⟨[]⟩ "c").2.1.store =
         (⟨[]⟩ : GraphState).store ++ added) ∧
       ∃ evs, (CmdPulli wPullEnvC2 ⟨[]⟩ "c").2.2 =
           PullEvent.histGet "c" :: ((pullLoop wPullEnvC2 ⟨[]⟩ pre).2.2 ++ evs) ∧
         ∀ ev ∈ evs, ev = PullEvent.jsonGet x.id ∨
           ev = PullEvent.layerGet x.id ∨ ev = PullEvent.registerCall x.id) :=
  ⟨by decide, pull_abort_on_error wPullEnvC2 ⟨[]⟩ "c"
    (PullErr.transportJson "b") (by decide)⟩

/-- A registry for the pull-skip scenario: the history for c lists a (already
local) and c; every json GET decodes and every layer GET succeeds. -/
def wPullEnvC4 : PullEnv :=
  ⟨fun i => if i = "c" then some "\x7b\"id\": \"a\"\x7d\x7b\"id\": \"c\"\x7d"
      else none,
   fun _ => some "\x7b\"id\": \"x\"\x7d",
   fun _ => some "LB",
   fun _ _ => false⟩

/-- A local graph already holding a. -/
def wGraphC4 : GraphState := ⟨[("a", ⟨"a", "", "", [], ""⟩, "L0")]⟩

/-- C4 witness: pulling c with a already local issues no json GET, layer GET
or Register for a. -/
theorem pull_skips_existing_witness :
    wGraphC4.existsId "a" = true ∧
    ∀ ev ∈ (CmdPulli wPullEnvC4 wGraphC4 "c").2.2,
      ev ≠ PullEvent.jsonGet "a" ∧ ev ≠ PullEvent.layerGet "a" ∧
      ev ≠ PullEvent.registerCall "a" :=
  ⟨by decide, pull_skips_existing wPullEnvC4 wGraphC4 "c" "a" (by decide)⟩
